import Mathlib

/-!
Shallow embedding of the Koyo V2 pool-indexing subsystem of `cow-services`
(`crates/shared/src/sources/koyo_v2`): the common pool info and state model,
the per-factory specializations (weighted, stable, oracle-weighted), the
shared common-state broadcast, and the top-level pool fetcher assembly.

Network reads are embedded as explicit parameters holding the value the
batched call resolves to (`Except String _` for fallible reads); `BTreeMap`
is embedded as an association list kept sorted by key, which is exactly the
iteration order the Rust map exposes; the `u8`/`U256` machine integers are
embedded as `Nat` with explicit overflow accounting where the source can
overflow or panic.
-/

set_option linter.unusedVariables false

namespace KoyoV2

/-- A 160-bit address, modelled by its numeric (big-endian) interpretation;
the `BTreeMap` byte-wise ordering on addresses coincides with this numeric
order. -/
abbrev H160 := Nat

/-- A 256-bit hash (pool identifier), modelled as its list of 32 bytes in
big-endian order. -/
abbrev H256 := List Nat

/-- An unsigned 256-bit word modelled as a natural number; overflow is made
explicit wherever the source could overflow. -/
abbrev U256 := Nat

/-- Outcome of running code that can panic: either a panic with its message
or a normal value. Used to embed the `expect` calls and the unchecked `pow`
of the source. -/
inductive PanicOr (α : Type) where
  | panicked (msg : String)
  | value (v : α)
deriving DecidableEq

/-- Modelled from the spec: the fixed-point number type `Bfp` of
`balancer_v2::swap::fixed_point` is not under the sampled sources; the spec
describes swap fees as fixed-point values on an 18-decimal basis carried as
raw wei, so `Bfp` is its wei value. -/
structure Bfp where
  wei : U256
deriving DecidableEq

/-- Wraps a raw wei value into a fixed-point number, as `Bfp::from_wei`. -/
def Bfp.from_wei (x : U256) : Bfp := ⟨x⟩

/-- Modelled from the spec: `TokenState` of `balancer_v2::pools::common`
(re-exported by the sampled koyo common module but itself not under the
sampled sources) pairs a token balance with the token's scaling exponent. -/
structure TokenState where
  balance : U256
  scaling_exponent : Nat
deriving DecidableEq

/-- Modelled from the spec: the weighted `TokenState` of
`balancer_v2::pools::weighted` (re-exported as `WeightedTokenState`) pairs a
token's common state with its fixed weight. -/
structure WeightedTokenState where
  common : TokenState
  weight : Bfp
deriving DecidableEq

/-- Modelled from the spec: the stable-pool amplification parameter is a
pair (factor, precision) because the on-chain representation can change over
a multi-block ramp; defined in `balancer_v2::pools::stable`, not under the
sampled sources. -/
structure AmplificationParameter where
  factor : U256
  precision : U256
deriving DecidableEq

/-- Modelled from the spec: the fallible `AmplificationParameter`
constructor used by the stable specialization; the sampled call site treats
it as returning a `Result`, modelled as rejecting a zero precision (a zero
precision would make the fixed-point amplification value undefined). -/
def AmplificationParameter.new (factor precision : U256) :
    Except String AmplificationParameter :=
  if precision = 0 then .error "amplification precision must not be zero"
  else .ok ⟨factor, precision⟩

/-- Rust's `u8::checked_sub` (and `U256` checked subtraction): `none` on
underflow. -/
def checked_sub (a b : Nat) : Option Nat :=
  if b ≤ a then some (a - b) else none

/-- The `U256::pow` of the source, which panics on overflow past `2^256`;
the panic is represented explicitly. -/
def u256_pow (base exp : Nat) : PanicOr U256 :=
  if base ^ exp < 2 ^ 256 then .value (base ^ exp)
  else .panicked "arithmetic operation overflow"

/-- Insertion into an association list kept sorted by key, replacing the
value when the key is already present: `BTreeMap::insert`. -/
def insertSorted {β : Type} (k : H160) (v : β) :
    List (H160 × β) → List (H160 × β)
  | [] => [(k, v)]
  | (k0, v0) :: rest =>
    if k < k0 then (k, v) :: (k0, v0) :: rest
    else if k = k0 then (k, v) :: rest
    else (k0, v0) :: insertSorted k v rest

/-- Collecting a sequence of key-value pairs into a `BTreeMap`, modelled as
the sorted association list built by repeated insertion; iterating the map
yields exactly this list. -/
def btreeOfList {β : Type} (l : List (H160 × β)) : List (H160 × β) :=
  l.foldl (fun m kv => insertSorted kv.1 kv.2 m) []

/-- Rust's `collect::<Result<_, _>>()`: stop at the first error, otherwise
gather all success values in order. -/
def collectExcept {ε α : Type} : List (Except ε α) → Except ε (List α)
  | [] => .ok []
  | x :: xs =>
    match x with
    | .error e => .error e
    | .ok v =>
      match collectExcept xs with
      | .error e => .error e
      | .ok vs => .ok (v :: vs)

namespace graph_api

/-- Modelled from the spec: the declared pool-type tag carried by each
discovery record (`graph_api::PoolType`, not under the sampled sources); the
sampled sources use the `Weighted` and `Stable` tags. -/
inductive PoolType where
  | Stable
  | Weighted
deriving DecidableEq

/-- Modelled from the spec: a token entry of a discovery `PoolRecord`
carries the token address, its decimals and an optional weight. -/
structure Token where
  address : H160
  decimals : Nat
  weight : Option Bfp
deriving DecidableEq

/-- Modelled from the spec: a discovery `PoolRecord` (`graph_api::PoolData`,
not under the sampled sources) carries the pool type tag, pool id, address
and token list. -/
structure PoolData where
  pool_type : PoolType
  id : H256
  address : H160
  tokens : List Token
deriving DecidableEq

end graph_api

namespace common

/-- Common pool data shared across all Koyo pools
(`koyo_v2::pools::common::PoolInfo`). -/
structure PoolInfo where
  id : H256
  address : H160
  tokens : List H160
  scaling_exponents : List Nat
  block_created : Nat
deriving DecidableEq

/-- Common pool state shared across all pool types
(`koyo_v2::pools::common::PoolState`); the token map is the `BTreeMap`
embedded as its sorted association list. -/
structure PoolState where
  paused : Bool
  swap_fee : Bfp
  tokens : List (H160 × TokenState)
deriving DecidableEq

/-- Converts a token decimal count to its scaling exponent
(`scaling_exponent_from_decimals`): `18 - decimals`, an error for tokens
with more than 18 decimals. -/
def scaling_exponent_from_decimals (decimals : Nat) : Except String Nat :=
  match checked_sub 18 decimals with
  | some e => .ok e
  | none => .error "unsupported token with more than 18 decimals"

/-- Loads a common pool info from Graph pool data
(`common::PoolInfo::from_graph_data`): requires strictly more than one
token, then derives one scaling exponent per token. -/
def PoolInfo.from_graph_data (pool : graph_api.PoolData) (block_created : Nat) :
    Except String PoolInfo :=
  if 1 < pool.tokens.length then
    match collectExcept
        (pool.tokens.map (fun t => scaling_exponent_from_decimals t.decimals)) with
    | .error e => .error e
    | .ok exps =>
      .ok ⟨pool.id, pool.address, pool.tokens.map (fun t => t.address), exps,
           block_created⟩
  else .error "insufficient tokens in pool"

/-- Loads a common pool info requiring the record's pool type to match
(`common::PoolInfo::for_type`). -/
def PoolInfo.for_type (pool_type : graph_api.PoolType) (pool : graph_api.PoolData)
    (block_created : Nat) : Except String PoolInfo :=
  if pool.pool_type = pool_type then PoolInfo.from_graph_data pool block_created
  else .error "cannot convert pool to the requested type"

/-- Computes the scaling rate from a scaling exponent
(`common::compute_scaling_rate`): checked subtraction of the exponent from
18, then a `U256` power whose possible overflow panic is represented
explicitly. -/
def compute_scaling_rate (scaling_exponent : Nat) : PanicOr (Except String U256) :=
  match checked_sub 18 scaling_exponent with
  | none =>
    .value (.error "underflow computing decimals from Koyo pool scaling exponent")
  | some decimals =>
    match u256_pow 10 decimals with
    | .panicked m => .panicked m
    | .value r => .value (.ok r)

/-- Embedding of `PoolInfoFetcher::fetch_common_pool_state`. The three
batched reads are passed as the values they resolve to: `get_paused_state`
resolves to (paused, pauseWindowEndTime, bufferPeriodEndTime),
`get_swap_fee_percentage` to the fee in wei, and the vault's
`get_pool_tokens` to (tokens, balances, lastChangeBlock). The results are
awaited in that order; a token list differing from the pool's recorded one
is rejected, otherwise tokens, balances and scaling exponents are zipped
positionally and collected into the token `BTreeMap`. -/
def fetch_common_pool_state (pool : PoolInfo)
    (paused_read : Except String (Bool × U256 × U256))
    (swap_fee_read : Except String U256)
    (balances_read : Except String (List H160 × List U256 × U256)) :
    Except String PoolState :=
  match paused_read with
  | .error e => .error e
  | .ok (paused, _, _) =>
    match swap_fee_read with
    | .error e => .error e
    | .ok fee =>
      match balances_read with
      | .error e => .error e
      | .ok (token_addresses, balances, _) =>
        if pool.tokens = token_addresses then
          .ok ⟨paused, Bfp.from_wei fee,
            btreeOfList (List.zipWith
              (fun a p => (a, TokenState.mk p.1 p.2))
              pool.tokens (List.zip balances pool.scaling_exponents))⟩
        else .error "pool token mismatch"

/-- One batch of independent per-pool common-state fetches: each pool's
future in the source is built from that pool's own queued reads only, so the
batch result is the list of per-pool results. -/
def fetch_common_batch
    (pools : List (PoolInfo × (Except String (Bool × U256 × U256) ×
      Except String U256 × Except String (List H160 × List U256 × U256)))) :
    List (Except String PoolState) :=
  pools.map (fun p => fetch_common_pool_state p.1 p.2.1 p.2.2.1 p.2.2.2)

/-- Content of the oneshot channel inside `share_common_pool_state`: empty
until the producer side has run, afterwards the produced pool state or a
unit marker for an error (`anyhow::Error` is not cloneable, so the error
payload is erased before sending). -/
def ChannelState := Option (Except Unit PoolState)

/-- Producer side of `share_common_pool_state`: the wrapped result future
sends the (error-erased) outcome into the channel as it completes via
`inspect`, and itself yields the unmodified result. -/
def share_producer (result : Except String PoolState) :
    Except String PoolState × ChannelState :=
  (result,
    some (match result with
      | .ok s => .ok s
      | .error _ => .error ()))

/-- Outcome of polling the shared consumer future of
`share_common_pool_state`, which calls `try_recv` on the channel and panics
via `expect` both when the channel is still empty and when it holds an
error marker. -/
inductive SharedOutcome where
  | stillPending
  | resolvedError
  | ready (state : PoolState)
deriving DecidableEq

/-- Consumer side of `share_common_pool_state`: a `try_recv` on the channel
followed by the two `expect` calls of the source. -/
def share_consumer : ChannelState → SharedOutcome
  | none => .stillPending
  | some (.error _) => .resolvedError
  | some (.ok s) => .ready s

end common

namespace weighted

/-- Weighted pool info (`koyo_v2::pools::weighted::PoolInfo`): the common
info plus one fixed weight per token, in the recorded token-list order. -/
structure PoolInfo where
  common : common.PoolInfo
  weights : List Bfp
deriving DecidableEq

/-- Weighted pool state (`koyo_v2::pools::weighted::PoolState`). -/
structure PoolState where
  tokens : List (H160 × WeightedTokenState)
  swap_fee : Bfp
deriving DecidableEq

/-- Loads a weighted pool info from Graph pool data
(`weighted::PoolInfo::from_graph_data`): the common conversion restricted to
the `Weighted` type tag, plus the token weights, each of which must be
present. -/
def PoolInfo.from_graph_data (pool : graph_api.PoolData) (block_created : Nat) :
    Except String PoolInfo :=
  match common.PoolInfo.for_type .Weighted pool block_created with
  | .error e => .error e
  | .ok c =>
    match collectExcept (pool.tokens.map (fun t =>
        match t.weight with
        | some w => Except.ok w
        | none => Except.error "missing weights for pool")) with
    | .error e => .error e
    | .ok ws => .ok ⟨c, ws⟩

end weighted

namespace stable

/-- Stable pool info (`koyo_v2::pools::stable::PoolInfo`): nothing beyond
the common info. -/
structure PoolInfo where
  common : common.PoolInfo
deriving DecidableEq

/-- Stable pool state (`koyo_v2::pools::stable::PoolState`). -/
structure PoolState where
  tokens : List (H160 × TokenState)
  swap_fee : Bfp
  amplification_parameter : AmplificationParameter
deriving DecidableEq

/-- Loads a stable pool info from Graph pool data
(`stable::PoolInfo::from_graph_data`): the common conversion restricted to
the `Stable` type tag. -/
def PoolInfo.from_graph_data (pool : graph_api.PoolData) (block_created : Nat) :
    Except String PoolInfo :=
  match common.PoolInfo.for_type .Stable pool block_created with
  | .error e => .error e
  | .ok c => .ok ⟨c⟩

/-- Embedding of the stable `FactoryIndexing::fetch_pool_state`
(`KoyoV2StablePoolFactory`). The future first awaits the shared common pool
state (passed here as the resolved state), then awaits the batched
`get_amplification_parameter` read, which resolves to
(value, isUpdating, precision) and whose failure propagates as an error via
the `?` operator; on success the state is always `some`. -/
def fetch_pool_state (pool_info : PoolInfo)
    (common_pool_state : common.PoolState)
    (amplification_read : Except String (U256 × Bool × U256)) :
    Except String (Option PoolState) :=
  match amplification_read with
  | .error e => .error e
  | .ok (factor, _, precision) =>
    match AmplificationParameter.new factor precision with
    | .error e => .error e
    | .ok a =>
      .ok (some ⟨common_pool_state.tokens, common_pool_state.swap_fee, a⟩)

end stable

/-- Modelled from the spec: the tagged variant over weighted and stable
state carried by a query-result pool (`koyo_v2::pools::PoolKind`, whose
defining module is not under the sampled sources). -/
inductive PoolKind where
  | Weighted (state : weighted.PoolState)
  | Stable (state : stable.PoolState)
deriving DecidableEq

/-- Modelled from the spec: a query-result pool is a pool id plus a tagged
variant over the pool kinds (`koyo_v2::pools::Pool`). -/
structure Pool where
  id : H256
  kind : PoolKind
deriving DecidableEq

/-- Modelled from the spec: the transient per-query pool classification
(`koyo_v2::pools::PoolStatus`), one of Active, Paused or Disabled. -/
inductive PoolStatus where
  | Active (pool : Pool)
  | Paused
  | Disabled
deriving DecidableEq

namespace common

/-- Embedding of `PoolInfoFetcher::fetch_pool`. Its inputs are the result
the queued common-state reads resolve to (`common_result`, the outcome of
`fetch_common_pool_state`), the factory's kind-specific state computation
partially applied to the pool info and its own queued reads (`specialized`,
a function of the shared common state it awaits), the conversion of the
specialized state into a `PoolKind` (the source's `.into()`), and the
pool id recorded in the pool info. Execution mirrors the source: the
producer-wrapped common-state future is awaited first (publishing into the
oneshot channel), an error returns early, a paused pool returns `Paused`
before the specialized future is awaited; otherwise the specialized future
runs, polling the shared consumer (whose `expect` panics are represented
explicitly), and its outcome maps `None` to `Disabled` and `Some` to
`Active`. -/
def fetch_pool {κ : Type} (specialized : PoolState → Except String (Option κ))
    (toKind : κ → PoolKind) (pool_id : H256)
    (common_result : Except String PoolState) :
    PanicOr (Except String PoolStatus) :=
  let prod := share_producer common_result
  match prod.1 with
  | .error e => .value (.error e)
  | .ok s =>
    if s.paused then .value (.ok .Paused)
    else
      match share_consumer prod.2 with
      | .stillPending =>
        .panicked "result future is still pending or has been dropped"
      | .resolvedError => .panicked "result future resolved to an error"
      | .ready cs =>
        match specialized cs with
        | .error e => .value (.error e)
        | .ok none => .value (.ok .Disabled)
        | .ok (some st) => .value (.ok (.Active ⟨pool_id, toKind st⟩))

end common

/-- The weighted pool factory (`KoyoV2WeightedPoolFactory`), identified by
its deployment address. -/
structure KoyoV2WeightedPoolFactory where
  address : H160
deriving DecidableEq

/-- The oracle-weighted pool factory (`KoyoV2OracleWeightedPoolFactory`),
identified by its deployment address. -/
structure KoyoV2OracleWeightedPoolFactory where
  address : H160
deriving DecidableEq

namespace weighted

/-- Embedding of the weighted `FactoryIndexing::specialize_pool_info`
(`KoyoV2WeightedPoolFactory`): one `get_normalized_weights` read against the
pool contract at the pool's address (`weights_of` maps a contract address to
what that read resolves to), whose results are wrapped with
`Bfp::from_wei`. -/
def specialize_pool_info (factory : KoyoV2WeightedPoolFactory)
    (weights_of : H160 → Except String (List U256))
    (pool : common.PoolInfo) : Except String PoolInfo :=
  match weights_of pool.address with
  | .error e => .error e
  | .ok ws => .ok ⟨pool, ws.map Bfp.from_wei⟩

/-- Embedding of the weighted `FactoryIndexing::fetch_pool_state`
(`KoyoV2WeightedPoolFactory`): no reads of its own; it awaits the shared
common state (passed here as the resolved state), zips the common token map
in its iteration order with the recorded weight list, and collects the
result into a `BTreeMap`. -/
def fetch_pool_state (factory : KoyoV2WeightedPoolFactory)
    (pool_info : PoolInfo) (common_pool_state : common.PoolState) :
    Except String (Option PoolState) :=
  .ok (some
    ⟨btreeOfList ((common_pool_state.tokens.zip pool_info.weights).map
        (fun p => (p.1.1, WeightedTokenState.mk p.1.2 p.2))),
      common_pool_state.swap_fee⟩)

/-- The pairing property asserted for a weighted pool state produced from a
common pool state: every token of the pool's recorded token list is mapped
to its own common token state paired with the weight recorded at that
token's index of the recorded token list. -/
def pairsWeightsByIndex (info : PoolInfo) (cs : common.PoolState)
    (st : PoolState) : Prop :=
  ∀ i : Fin info.common.tokens.length, ∀ hw : (i : Nat) < info.weights.length,
    List.lookup (info.common.tokens.get i) st.tokens =
      (List.lookup (info.common.tokens.get i) cs.tokens).map
        (fun c => ⟨c, info.weights.get ⟨(i : Nat), hw⟩⟩)

end weighted

namespace weighted_oracle

/-- Embedding of `as_weighted_factory`: a weighted factory view constructed
at the oracle factory's own address. -/
def as_weighted_factory (factory : KoyoV2OracleWeightedPoolFactory) :
    KoyoV2WeightedPoolFactory :=
  ⟨factory.address⟩

/-- Embedding of the oracle-weighted
`FactoryIndexing::specialize_pool_info`
(`KoyoV2OracleWeightedPoolFactory`): delegates to the weighted factory view
at the same address. -/
def specialize_pool_info (factory : KoyoV2OracleWeightedPoolFactory)
    (weights_of : H160 → Except String (List U256))
    (pool : common.PoolInfo) : Except String weighted.PoolInfo :=
  weighted.specialize_pool_info (as_weighted_factory factory) weights_of pool

/-- Embedding of the oracle-weighted `FactoryIndexing::fetch_pool_state`
(`KoyoV2OracleWeightedPoolFactory`): delegates to the weighted factory view
at the same address. -/
def fetch_pool_state (factory : KoyoV2OracleWeightedPoolFactory)
    (pool_info : weighted.PoolInfo)
    (common_pool_state : common.PoolState) :
    Except String (Option weighted.PoolState) :=
  weighted.fetch_pool_state (as_weighted_factory factory) pool_info
    common_pool_state

end weighted_oracle

namespace pool_fetching

/-- Common pool state of the legacy fetched-pool representation
(`pool_fetching::CommonPoolState`). -/
structure CommonPoolState where
  id : H256
  address : H160
  swap_fee : Bfp
  paused : Bool
deriving DecidableEq

/-- A fetched weighted pool (`pool_fetching::WeightedPool`); the `HashMap`
of reserves is embedded as the association list it is collected from. -/
structure WeightedPool where
  common : CommonPoolState
  reserves : List (H160 × WeightedTokenState)
deriving DecidableEq

/-- A fetched stable pool (`pool_fetching::StablePool`). -/
structure StablePool where
  common : CommonPoolState
  reserves : List (H160 × TokenState)
  amplification_parameter : AmplificationParameter
deriving DecidableEq

/-- The result of the top-level `fetch`
(`pool_fetching::FetchedKoyoPools`). -/
structure FetchedKoyoPools where
  stable_pools : List StablePool
  weighted_pools : List WeightedPool
deriving DecidableEq

/-- Extracts the pool address from a pool id
(`pool_fetching::pool_address_from_id`): the numeric value of the first 20
bytes of the id. -/
def pool_address_from_id (pool_id : H256) : H160 :=
  (pool_id.take 20).foldl (fun acc b => acc * 256 + b) 0

/-- Embedding of `WeightedPool::new_unpaused`: assembles a fetched weighted
pool from a pool id and a weighted state, with the address derived from the
id and the pause flag set to false. -/
def WeightedPool.new_unpaused (pool_id : H256)
    (weighted_state : weighted.PoolState) : WeightedPool :=
  ⟨⟨pool_id, pool_address_from_id pool_id, weighted_state.swap_fee, false⟩,
    weighted_state.tokens⟩

/-- Embedding of `StablePool::new_unpaused`: assembles a fetched stable pool
from a pool id and a stable state, with the address derived from the id and
the pause flag set to false. -/
def StablePool.new_unpaused (pool_id : H256)
    (stable_state : stable.PoolState) : StablePool :=
  ⟨⟨pool_id, pool_address_from_id pool_id, stable_state.swap_fee, false⟩,
    stable_state.tokens, stable_state.amplification_parameter⟩

/-- One step of the fold inside `KoyoPoolFetcher::fetch`: push the pool
into the list matching its kind, through the `new_unpaused` constructor. -/
def collectPool (acc : FetchedKoyoPools) (pool : Pool) : FetchedKoyoPools :=
  match pool.kind with
  | .Weighted st =>
    ⟨acc.stable_pools,
      acc.weighted_pools ++ [WeightedPool.new_unpaused pool.id st]⟩
  | .Stable st =>
    ⟨acc.stable_pools ++ [StablePool.new_unpaused pool.id st],
      acc.weighted_pools⟩

/-- Embedding of the fold inside `KoyoPoolFetcher::fetch` that splits a
`Vec<Pool>` into a `FetchedKoyoPools` by pool kind, through the
`new_unpaused` constructors. -/
def fetchedFromPools (pools : List Pool) : FetchedKoyoPools :=
  pools.foldl collectPool ⟨[], []⟩

/-- The weighted fetched pool a query-result pool contributes, if any; the
weighted projection of one `collectPool` step. -/
def weightedOfPool (pool : Pool) : Option WeightedPool :=
  match pool.kind with
  | .Weighted st => some (WeightedPool.new_unpaused pool.id st)
  | .Stable _ => none

/-- The stable fetched pool a query-result pool contributes, if any; the
stable projection of one `collectPool` step. -/
def stableOfPool (pool : Pool) : Option StablePool :=
  match pool.kind with
  | .Weighted _ => none
  | .Stable st => some (StablePool.new_unpaused pool.id st)

/-- Modelled from the spec: the internal fetcher's
`pools_by_id(ids, at_block)` (implemented by the registry, aggregate and
cache submodules, which are not under the sampled sources) classifies each
requested pool id at the pinned block and returns the pools of the ids that
classify as Active, filtering the other ids out. The per-id classification
is abstracted as `statuses`. -/
def pools_by_id (statuses : H256 → PoolStatus) (ids : List H256) : List Pool :=
  ids.filterMap (fun id =>
    match statuses id with
    | .Active p => some p
    | .Paused => none
    | .Disabled => none)

/-- Embedding of `KoyoPoolFetcher::fetch_pools`: the candidate ids computed
from the token pairs (abstracted as `candidate_ids`) have every deny-listed
id removed, and only then is `pools_by_id` invoked on them. -/
def fetch_pools (candidate_ids : List H256) (pool_id_deny_list : List H256)
    (statuses : H256 → PoolStatus) : List Pool :=
  pools_by_id statuses
    (candidate_ids.filter (fun id => ¬ pool_id_deny_list.contains id))

/-- Embedding of `KoyoPoolFetcher::fetch`: fetches the pools and splits them
into the legacy `FetchedKoyoPools` representation. -/
def fetch (candidate_ids : List H256) (pool_id_deny_list : List H256)
    (statuses : H256 → PoolStatus) : FetchedKoyoPools :=
  fetchedFromPools (fetch_pools candidate_ids pool_id_deny_list statuses)

/-- Embedding of the seeding step of `create_internal_pool_fetcher`: the
initial pools of a registry are the factory-specific conversions of every
registered discovery record, collected through `Result` so that any failing
record fails the whole registry construction and no record of the batch
enters the index. -/
def initial_pools {π : Type}
    (from_graph_data : graph_api.PoolData → Nat → Except String π)
    (registered_pools : List graph_api.PoolData)
    (fetched_block_number : Nat) : Except String (List π) :=
  collectExcept
    (registered_pools.map (fun pool => from_graph_data pool fetched_block_number))

end pool_fetching

/-! Helper lemmas shared by the claim theorems. -/

/-- Inserting a key larger than every key of a sorted association list
appends it at the end. -/
theorem insertSorted_append {β : Type} (k : H160) (v : β) :
    ∀ l : List (H160 × β), (∀ p ∈ l, p.1 < k) →
      insertSorted k v l = l ++ [(k, v)]
  | [], _ => rfl
  | (k0, v0) :: tl, h => by
    have hk : k0 < k := h (k0, v0) (by simp)
    have h1 : ¬ k < k0 := Nat.lt_asymm hk
    have h2 : ¬ k = k0 := (ne_of_gt hk)
    simp only [insertSorted, if_neg h1, if_neg h2, List.cons_append]
    exact congrArg _ (insertSorted_append k v tl (fun p hp => h p (by simp [hp])))

/-- Folding `BTreeMap` insertion over a list with strictly increasing keys,
starting from an accumulator whose keys all precede them, appends the list
to the accumulator. -/
theorem btree_foldl_sorted {β : Type} :
    ∀ (l acc : List (H160 × β)),
      (∀ p ∈ acc, ∀ q ∈ l, p.1 < q.1) →
      (l.map Prod.fst).Pairwise (· < ·) →
      l.foldl (fun m kv => insertSorted kv.1 kv.2 m) acc = acc ++ l
  | [], acc, _, _ => by simp
  | (k, v) :: tl, acc, hcross, hsort => by
    rw [List.map_cons, List.pairwise_cons] at hsort
    obtain ⟨hhead, htail⟩ := hsort
    simp only [List.foldl_cons]
    rw [insertSorted_append k v acc (fun p hp => hcross p hp (k, v) (by simp))]
    rw [btree_foldl_sorted tl (acc ++ [(k, v)]) ?hc htail]
    · simp
    case hc =>
      intro p hp q hq
      rcases List.mem_append.mp hp with h | h
      · exact hcross p h q (by simp [hq])
      · simp only [List.mem_singleton] at h
        subst h
        exact hhead q.1 (List.mem_map.mpr ⟨q, hq, rfl⟩)

/-- Collecting a list with strictly increasing keys into a `BTreeMap`
leaves it unchanged. -/
theorem btreeOfList_sorted {β : Type} (l : List (H160 × β))
    (hsort : (l.map Prod.fst).Pairwise (· < ·)) : btreeOfList l = l := by
  simpa using btree_foldl_sorted l [] (by simp) hsort

/-- Looking up the key at position `i` of an association list with distinct
keys yields the value at position `i`. -/
theorem lookup_getElem_of_nodup {β : Type} :
    ∀ (l : List (H160 × β)), (l.map Prod.fst).Nodup →
      ∀ (i : Nat) (hi : i < l.length), List.lookup l[i].1 l = some l[i].2
  | [], _, i, hi => by simp at hi
  | (k0, v0) :: tl, hnd, i, hi => by
    rw [List.map_cons, List.nodup_cons] at hnd
    obtain ⟨hk0, hnd⟩ := hnd
    match i with
    | 0 => simp [List.lookup]
    | i + 1 =>
      have hi' : i < tl.length := by simpa using hi
      have hne : tl[i].1 ≠ k0 := by
        intro h
        exact hk0 (h ▸ List.mem_map.mpr ⟨tl[i], List.getElem_mem hi', rfl⟩)
      have hcons : ((k0, v0) :: tl)[i + 1] = tl[i] := by simp
      rw [hcons, List.lookup_cons]
      have hbeq : (tl[i].1 == k0) = false := beq_eq_false_iff_ne.mpr hne
      rw [hbeq]
      exact lookup_getElem_of_nodup tl hnd i hi'

/-- A list containing an error collects to an error. -/
theorem collectExcept_error_of_mem {ε α : Type} :
    ∀ (l : List (Except ε α)) (e : ε), Except.error e ∈ l →
      ∃ e2, collectExcept l = Except.error e2
  | [], e, h => by simp at h
  | x :: tl, e, h => by
    match x with
    | .error e0 => exact ⟨e0, rfl⟩
    | .ok v =>
      have hmem : Except.error e ∈ tl := by
        rcases List.mem_cons.mp h with h | h
        · simp at h
        · exact h
      obtain ⟨e2, he2⟩ := collectExcept_error_of_mem tl e hmem
      exact ⟨e2, by simp [collectExcept, he2]⟩

/-- The fold splitting query-result pools by kind appends each pool's
contribution of either kind to the accumulator. -/
theorem fetched_foldl_split :
    ∀ (pools : List Pool) (acc : pool_fetching.FetchedKoyoPools),
      pools.foldl pool_fetching.collectPool acc =
        ⟨acc.stable_pools ++ pools.filterMap pool_fetching.stableOfPool,
          acc.weighted_pools ++ pools.filterMap pool_fetching.weightedOfPool⟩
  | [], acc => by simp
  | pool :: tl, acc => by
    obtain ⟨id, kind⟩ := pool
    cases kind with
    | Weighted st =>
      simp [pool_fetching.collectPool, pool_fetching.weightedOfPool,
        pool_fetching.stableOfPool, fetched_foldl_split tl, List.filterMap_cons]
    | Stable st =>
      simp [pool_fetching.collectPool, pool_fetching.weightedOfPool,
        pool_fetching.stableOfPool, fetched_foldl_split tl, List.filterMap_cons]

/-- Membership in the weighted component of the kind split. -/
theorem mem_fetched_weighted (pools : List Pool)
    (wp : pool_fetching.WeightedPool) :
    wp ∈ (pool_fetching.fetchedFromPools pools).weighted_pools ↔
      ∃ pool ∈ pools, pool_fetching.weightedOfPool pool = some wp := by
  rw [pool_fetching.fetchedFromPools, fetched_foldl_split]
  simp [List.mem_filterMap]

/-- Membership in the stable component of the kind split. -/
theorem mem_fetched_stable (pools : List Pool)
    (sp : pool_fetching.StablePool) :
    sp ∈ (pool_fetching.fetchedFromPools pools).stable_pools ↔
      ∃ pool ∈ pools, pool_fetching.stableOfPool pool = some sp := by
  rw [pool_fetching.fetchedFromPools, fetched_foldl_split]
  simp [List.mem_filterMap]

/-- A pool returned by `pools_by_id` comes from one of the requested ids,
classified Active. -/
theorem mem_pools_by_id (statuses : H256 → PoolStatus) (ids : List H256)
    (pool : Pool) (h : pool ∈ pool_fetching.pools_by_id statuses ids) :
    ∃ id ∈ ids, statuses id = .Active pool := by
  rw [pool_fetching.pools_by_id] at h
  obtain ⟨id, hid, hf⟩ := List.mem_filterMap.mp h
  refine ⟨id, hid, ?_⟩
  cases hst : statuses id with
  | Active p => rw [hst] at hf; simp at hf; rw [hf]
  | Paused => rw [hst] at hf; simp at hf
  | Disabled => rw [hst] at hf; simp at hf

/-- The type-checked conversion errors on records with fewer than two
tokens, whichever pool type is requested. -/
theorem for_type_error_of_short (pt : graph_api.PoolType)
    (pool : graph_api.PoolData) (b : Nat) (h : pool.tokens.length < 2) :
    ∃ e, common.PoolInfo.for_type pt pool b = .error e := by
  rw [common.PoolInfo.for_type]
  by_cases hpt : pool.pool_type = pt
  · rw [if_pos hpt, common.PoolInfo.from_graph_data, if_neg (by omega)]
    exact ⟨_, rfl⟩
  · rw [if_neg hpt]
    exact ⟨_, rfl⟩

/-- The weighted conversion errors on records with fewer than two
tokens. -/
theorem weighted_from_graph_data_error_of_short (pool : graph_api.PoolData)
    (b : Nat) (h : pool.tokens.length < 2) :
    ∃ e, weighted.PoolInfo.from_graph_data pool b = .error e := by
  obtain ⟨e, he⟩ := for_type_error_of_short .Weighted pool b h
  exact ⟨e, by unfold weighted.PoolInfo.from_graph_data; rw [he]⟩

/-- The stable conversion errors on records with fewer than two tokens. -/
theorem stable_from_graph_data_error_of_short (pool : graph_api.PoolData)
    (b : Nat) (h : pool.tokens.length < 2) :
    ∃ e, stable.PoolInfo.from_graph_data pool b = .error e := by
  obtain ⟨e, he⟩ := for_type_error_of_short .Stable pool b h
  exact ⟨e, by unfold stable.PoolInfo.from_graph_data; rw [he]⟩

/-- A registry seed list containing a record whose conversion errors makes
the whole seeding collect to an error. -/
theorem initial_pools_error_of_mem {π : Type}
    (fgd : graph_api.PoolData → Nat → Except String π)
    (pools : List graph_api.PoolData) (b : Nat) (pool : graph_api.PoolData)
    (hmem : pool ∈ pools) (e : String) (hfgd : fgd pool b = .error e) :
    ∃ e2, pool_fetching.initial_pools fgd pools b = .error e2 := by
  have hmem2 : Except.error e ∈ pools.map (fun p => fgd p b) :=
    List.mem_map.mpr ⟨pool, hmem, hfgd⟩
  exact collectExcept_error_of_mem _ e hmem2

/-- Looking up the key at position `i` of the weighted zip of an
association list with distinct keys and a weight list yields the value at
position `i` paired with the weight at position `i`. -/
theorem lookup_weight_zip (toks : List (H160 × TokenState)) (ws : List Bfp)
    (hnd : (toks.map Prod.fst).Nodup) (hle : toks.length ≤ ws.length)
    (i : Nat) (hi : i < toks.length) (hiw : i < ws.length) :
    List.lookup (toks[i]).1
      ((toks.zip ws).map
        (fun p => (p.1.1, WeightedTokenState.mk p.1.2 p.2))) =
      some ⟨(toks[i]).2, ws[i]⟩ := by
  have hiz : i < (toks.zip ws).length := by
    rw [List.length_zip]
    exact lt_min hi hiw
  have hizm : i < ((toks.zip ws).map
      (fun p => (p.1.1, WeightedTokenState.mk p.1.2 p.2))).length := by
    rw [List.length_map]
    exact hiz
  have hfst : ((toks.zip ws).map
      (fun p => (p.1.1, WeightedTokenState.mk p.1.2 p.2))).map Prod.fst =
      toks.map Prod.fst := by
    rw [List.map_map]
    have hcomp : (Prod.fst ∘ fun p : (H160 × TokenState) × Bfp =>
        (p.1.1, WeightedTokenState.mk p.1.2 p.2)) =
        (Prod.fst ∘ (Prod.fst :
          (H160 × TokenState) × Bfp → H160 × TokenState)) := rfl
    rw [hcomp, ← List.map_map, List.map_fst_zip _ _ hle]
  have hnd2 : (((toks.zip ws).map
      (fun p => (p.1.1, WeightedTokenState.mk p.1.2 p.2))).map
        Prod.fst).Nodup := by
    rw [hfst]
    exact hnd
  have hkey : (((toks.zip ws).map
      (fun p => (p.1.1, WeightedTokenState.mk p.1.2 p.2)))[i]).1 =
      (toks[i]).1 := by
    simp [List.getElem_map, List.getElem_zip]
  have hlk := lookup_getElem_of_nodup _ hnd2 i hizm
  rw [hkey] at hlk
  rw [hlk]
  simp [List.getElem_map, List.getElem_zip, List.get_eq_getElem]

/-! Claim theorems. -/

/-- C1: a pool queried through `PoolInfoFetcher::fetch_pool` is classified
by the ordered rule — a paused common state yields `Paused` regardless of
the kind-specific computation, otherwise a kind-specific state resolving to
`None` yields `Disabled`, otherwise `Active` with a pool carrying the
pool's id and the specialized state. -/
theorem claim_C1_pool_status_rule {κ : Type}
    (specialized : common.PoolState → Except String (Option κ))
    (toKind : κ → PoolKind) (pool_id : H256) (s : common.PoolState) :
    (s.paused = true →
      common.fetch_pool specialized toKind pool_id (.ok s) =
        .value (.ok .Paused)) ∧
    (s.paused = false → specialized s = .ok none →
      common.fetch_pool specialized toKind pool_id (.ok s) =
        .value (.ok .Disabled)) ∧
    (∀ st, s.paused = false → specialized s = .ok (some st) →
      common.fetch_pool specialized toKind pool_id (.ok s) =
        .value (.ok (.Active ⟨pool_id, toKind st⟩))) := by
  refine ⟨fun hp => ?_, fun hp hs => ?_, fun st hp hs => ?_⟩
  · simp [common.fetch_pool, common.share_producer, common.share_consumer, hp]
  · simp [common.fetch_pool, common.share_producer, common.share_consumer,
      hp, hs]
  · simp [common.fetch_pool, common.share_producer, common.share_consumer,
      hp, hs]

/-- C1 witness: the three branches of the status rule at concrete inputs —
a paused pool is `Paused`, a `None` specialization is `Disabled`, a `Some`
specialization is `Active` with the pool id and specialized state. -/
theorem claim_C1_pool_status_rule_witness :
    common.fetch_pool (fun _ => Except.ok (some ()))
      (fun _ => PoolKind.Stable ⟨[], ⟨3⟩, ⟨1, 1⟩⟩) [7]
      (.ok ⟨true, ⟨0⟩, []⟩) = .value (.ok .Paused) ∧
    common.fetch_pool (fun _ => Except.ok (none : Option Unit))
      (fun _ => PoolKind.Stable ⟨[], ⟨3⟩, ⟨1, 1⟩⟩) [7]
      (.ok ⟨false, ⟨0⟩, []⟩) = .value (.ok .Disabled) ∧
    common.fetch_pool (fun _ => Except.ok (some ()))
      (fun _ => PoolKind.Stable ⟨[], ⟨3⟩, ⟨1, 1⟩⟩) [7]
      (.ok ⟨false, ⟨0⟩, []⟩) =
      .value (.ok (.Active ⟨[7], PoolKind.Stable ⟨[], ⟨3⟩, ⟨1, 1⟩⟩⟩)) :=
  ⟨(claim_C1_pool_status_rule _ _ _ _).1 rfl,
    (claim_C1_pool_status_rule _ _ _ _).2.1 rfl rfl,
    (claim_C1_pool_status_rule _ _ _ _).2.2 () rfl rfl⟩

/-- C2 counterexample: for a stable pool whose batched
`get_amplification_parameter` read fails, the query resolves to an error —
not to the `Disabled` classification the claim asserts. Concretely, a
two-token stable pool with an unpaused common state and a failing
amplification read resolves to that read's error. -/
theorem claim_C2_counterexample :
    common.fetch_pool
      (fun s => stable.fetch_pool_state ⟨⟨[9], 9, [1, 2], [0, 0], 5⟩⟩ s
        (.error "amplification read failed"))
      PoolKind.Stable [9]
      (.ok ⟨false, ⟨3⟩, [(1, ⟨10, 0⟩), (2, ⟨20, 0⟩)]⟩) =
      .value (.error "amplification read failed") ∧
    common.fetch_pool
      (fun s => stable.fetch_pool_state ⟨⟨[9], 9, [1, 2], [0, 0], 5⟩⟩ s
        (.error "amplification read failed"))
      PoolKind.Stable [9]
      (.ok ⟨false, ⟨3⟩, [(1, ⟨10, 0⟩), (2, ⟨20, 0⟩)]⟩) ≠
      .value (.ok PoolStatus.Disabled) := by
  refine ⟨rfl, fun h => ?_⟩
  simp [common.fetch_pool, common.share_producer, common.share_consumer,
    stable.fetch_pool_state] at h

/-- C2 (amended): for a stable pool whose amplification-parameter read
fails during a query, the kind-specific `fetch_pool_state` resolves to that
read's error (it never resolves to `None`), so that pool's query resolves
to an error rather than to `Disabled`. -/
theorem claim_C2_stable_amplification_failure
    (pool_info : stable.PoolInfo) (fee : Bfp)
    (toks : List (H160 × TokenState)) (e : String) (pool_id : H256) :
    common.fetch_pool
      (fun s => stable.fetch_pool_state pool_info s (.error e))
      PoolKind.Stable pool_id (.ok ⟨false, fee, toks⟩) =
      .value (.error e) ∧
    (∀ (cs : common.PoolState) (ar : Except String (U256 × Bool × U256)),
      (∃ e2, stable.fetch_pool_state pool_info cs ar = .error e2) ∨
      (∃ st, stable.fetch_pool_state pool_info cs ar = .ok (some st))) := by
  constructor
  · simp [common.fetch_pool, common.share_producer, common.share_consumer,
      stable.fetch_pool_state]
  · intro cs ar
    match ar with
    | .error e2 => exact Or.inl ⟨e2, rfl⟩
    | .ok (factor, upd, precision) =>
      by_cases hp : precision = 0
      · exact Or.inl ⟨"amplification precision must not be zero",
          by simp [stable.fetch_pool_state, AmplificationParameter.new, hp]⟩
      · exact Or.inr ⟨⟨cs.tokens, cs.swap_fee, ⟨factor, precision⟩⟩,
          by simp [stable.fetch_pool_state, AmplificationParameter.new, hp]⟩

/-- C3 counterexample: the shared common-state handle is not made unusable
before publication by construction — the consumer is an ordinary function
on channel states, and polling it on the still-empty pre-publish channel
reaches the runtime `expect` check (the still-pending panic), just as
polling it after a failed producer reaches the second runtime `expect`
check; safety comes from call order plus these runtime checks. -/
theorem claim_C3_counterexample :
    common.share_consumer none = common.SharedOutcome.stillPending ∧
    common.share_consumer (some (.error ())) =
      common.SharedOutcome.resolvedError :=
  ⟨rfl, rfl⟩

/-- C3 (amended): under `fetch_pool`'s usage the still-pending branch of
the shared consumer is unreachable — every execution of `fetch_pool`
yields a value and never one of the consumer's panics — because
`fetch_pool` awaits the producer-wrapped future to completion (with an
early return on error and on pause) before the kind-specific future polls
the consumer, which then reads exactly the published success value; the
guard itself is the runtime `expect` pair, not an unusable-by-construction
handle. -/
theorem claim_C3_shared_state_read_safety {κ : Type}
    (specialized : common.PoolState → Except String (Option κ))
    (toKind : κ → PoolKind) (pool_id : H256)
    (common_result : Except String common.PoolState) :
    (∃ r, common.fetch_pool specialized toKind pool_id common_result =
      .value r) ∧
    (∀ s, common.share_consumer (common.share_producer (Except.ok s)).2 =
      .ready s) := by
  constructor
  · match common_result with
    | .error e => exact ⟨.error e, rfl⟩
    | .ok s =>
      cases hp : s.paused with
      | true =>
        exact ⟨.ok .Paused, by
          simp [common.fetch_pool, common.share_producer,
            common.share_consumer, hp]⟩
      | false =>
        match hs : specialized s with
        | .error e =>
          exact ⟨.error e, by
            simp [common.fetch_pool, common.share_producer,
              common.share_consumer, hp, hs]⟩
        | .ok none =>
          exact ⟨.ok .Disabled, by
            simp [common.fetch_pool, common.share_producer,
              common.share_consumer, hp, hs]⟩
        | .ok (some st) =>
          exact ⟨.ok (.Active ⟨pool_id, toKind st⟩), by
            simp [common.fetch_pool, common.share_producer,
              common.share_consumer, hp, hs]⟩
  · intro s
    rfl

/-- C6: `compute_scaling_rate e` is exactly `10 ^ (18 - e)` for `e ≤ 18`,
an explicit underflow error for `e > 18`, and never reaches the `U256`
power's overflow panic for any input. -/
theorem claim_C6_compute_scaling_rate (scaling_exponent : Nat) :
    (scaling_exponent ≤ 18 →
      common.compute_scaling_rate scaling_exponent =
        .value (.ok (10 ^ (18 - scaling_exponent)))) ∧
    (18 < scaling_exponent →
      common.compute_scaling_rate scaling_exponent =
        .value
          (.error "underflow computing decimals from Koyo pool scaling exponent")) ∧
    (∀ msg, common.compute_scaling_rate scaling_exponent ≠ .panicked msg) := by
  have hpow : 10 ^ (18 - scaling_exponent) < 2 ^ 256 := by
    calc 10 ^ (18 - scaling_exponent) ≤ 10 ^ 18 :=
          Nat.pow_le_pow_right (by norm_num) (by omega)
      _ < 2 ^ 256 := by norm_num
  have h2 : u256_pow 10 (18 - scaling_exponent) =
      .value (10 ^ (18 - scaling_exponent)) := by
    unfold u256_pow
    rw [if_pos hpow]
  refine ⟨fun h => ?_, fun h => ?_, fun msg => ?_⟩
  · have h1 : checked_sub 18 scaling_exponent =
        some (18 - scaling_exponent) := by simp [checked_sub, h]
    simp [common.compute_scaling_rate, h1, h2]
  · simp [common.compute_scaling_rate, checked_sub, Nat.not_le.mpr h]
  · by_cases h : scaling_exponent ≤ 18
    · have h1 : checked_sub 18 scaling_exponent =
          some (18 - scaling_exponent) := by simp [checked_sub, h]
      simp [common.compute_scaling_rate, h1, h2]
    · simp [common.compute_scaling_rate, checked_sub, h]

/-- C6 witness: the scaling rate at exponent 3 is `10 ^ 15` and the
exponent 19 yields the underflow error. -/
theorem claim_C6_compute_scaling_rate_witness :
    common.compute_scaling_rate 3 = .value (.ok (10 ^ (18 - 3))) ∧
    common.compute_scaling_rate 19 =
      .value
        (.error "underflow computing decimals from Koyo pool scaling exponent") :=
  ⟨(claim_C6_compute_scaling_rate 3).1 (by norm_num),
    (claim_C6_compute_scaling_rate 19).2.1 (by norm_num)⟩

/-- C9: the oracle-weighted factory's `specialize_pool_info` and
`fetch_pool_state` return exactly the weighted factory's results at the
same factory address — the delegation is verbatim forwarding. -/
theorem claim_C9_oracle_weighted_forwarding
    (factory : KoyoV2OracleWeightedPoolFactory)
    (weights_of : H160 → Except String (List U256))
    (pool : common.PoolInfo) (pool_info : weighted.PoolInfo)
    (common_pool_state : common.PoolState) :
    weighted_oracle.specialize_pool_info factory weights_of pool =
      weighted.specialize_pool_info ⟨factory.address⟩ weights_of pool ∧
    weighted_oracle.fetch_pool_state factory pool_info common_pool_state =
      weighted.fetch_pool_state ⟨factory.address⟩ pool_info
        common_pool_state :=
  ⟨rfl, rfl⟩

/-- C4: a vault `get_pool_tokens` read returning a token list differing in
content or order from the pool's recorded token list makes
`fetch_common_pool_state` — and hence that pool's `fetch_pool` future —
resolve to an error; a success is only ever produced when the returned
list is exactly the recorded list (so balances are paired positionally
with the recorded tokens, never with the wrong ones); and each pool of a
batch is computed from its own pool info and reads alone, so sibling pools
are unaffected. -/
theorem claim_C4_token_mismatch_is_pool_scoped_error
    (pool : common.PoolInfo)
    (paused_read : Except String (Bool × U256 × U256))
    (swap_fee_read : Except String U256)
    (token_addresses : List H160) (balances : List U256) (lcb : U256)
    (hmismatch : pool.tokens ≠ token_addresses) :
    (∃ e, common.fetch_common_pool_state pool paused_read swap_fee_read
      (.ok (token_addresses, balances, lcb)) = .error e) ∧
    (∀ {κ : Type}
      (specialized : common.PoolState → Except String (Option κ))
      (toKind : κ → PoolKind) (pool_id : H256),
      ∃ e, common.fetch_pool specialized toKind pool_id
        (common.fetch_common_pool_state pool paused_read swap_fee_read
          (.ok (token_addresses, balances, lcb))) = .value (.error e)) ∧
    (∀ (pr : Except String (Bool × U256 × U256)) (sr : Except String U256)
      (ta : List H160) (ba : List U256) (lc : U256) (s : common.PoolState),
      common.fetch_common_pool_state pool pr sr (.ok (ta, ba, lc)) = .ok s →
      ta = pool.tokens) ∧
    (∀ batch (i : Nat), (common.fetch_common_batch batch)[i]? =
      (batch[i]?).map (fun p =>
        common.fetch_common_pool_state p.1 p.2.1 p.2.2.1 p.2.2.2)) := by
  have key : ∀ (pr : Except String (Bool × U256 × U256))
      (sr : Except String U256),
      ∃ e, common.fetch_common_pool_state pool pr sr
        (.ok (token_addresses, balances, lcb)) = .error e := by
    intro pr sr
    match pr with
    | .error e => exact ⟨e, rfl⟩
    | .ok (p, x, y) =>
      match sr with
      | .error e => exact ⟨e, rfl⟩
      | .ok fee =>
        exact ⟨"pool token mismatch",
          by simp [common.fetch_common_pool_state, hmismatch]⟩
  obtain ⟨e, he⟩ := key paused_read swap_fee_read
  refine ⟨⟨e, he⟩, ?_, ?_, ?_⟩
  · intro κ specialized toKind pool_id
    exact ⟨e, by rw [he]; rfl⟩
  · intro pr sr ta ba lc s h
    match pr with
    | .error e2 => simp [common.fetch_common_pool_state] at h
    | .ok (p, x, y) =>
      match sr with
      | .error e2 => simp [common.fetch_common_pool_state] at h
      | .ok fee =>
        by_cases heq : pool.tokens = ta
        · exact heq.symm
        · simp [common.fetch_common_pool_state, heq] at h
  · intro batch i
    simp [common.fetch_common_batch, List.getElem?_map]

/-- C4 witness: a pool recording tokens `[1, 2]` whose balance read returns
them in the order `[2, 1]` resolves to an error. -/
theorem claim_C4_token_mismatch_witness :
    ∃ e, common.fetch_common_pool_state ⟨[9], 9, [1, 2], [0, 0], 5⟩
      (.ok (false, 0, 0)) (.ok 3) (.ok ([2, 1], [10, 20], 0)) = .error e :=
  (claim_C4_token_mismatch_is_pool_scoped_error _ _ _ _ _ _ (by decide)).1

/-- C7: a common pool info built from discovery data always has at least
two tokens — `from_graph_data` errors on any record with fewer — and a
registry seed list containing such a record fails to collect for both the
weighted and the stable conversion, so such pools never enter the registry
index. -/
theorem claim_C7_at_least_two_tokens (pool : graph_api.PoolData) (b : Nat) :
    (pool.tokens.length < 2 →
      common.PoolInfo.from_graph_data pool b =
        .error "insufficient tokens in pool") ∧
    (∀ info, common.PoolInfo.from_graph_data pool b = .ok info →
      2 ≤ info.tokens.length) ∧
    (∀ pools : List graph_api.PoolData, pool ∈ pools →
      pool.tokens.length < 2 →
      (∃ e, pool_fetching.initial_pools weighted.PoolInfo.from_graph_data
        pools b = .error e) ∧
      (∃ e, pool_fetching.initial_pools stable.PoolInfo.from_graph_data
        pools b = .error e)) := by
  refine ⟨fun h => ?_, fun info h => ?_, fun pools hmem hlen => ?_⟩
  · rw [common.PoolInfo.from_graph_data, if_neg (by omega)]
  · by_cases h1 : 1 < pool.tokens.length
    · rw [common.PoolInfo.from_graph_data, if_pos h1] at h
      cases hc : collectExcept (pool.tokens.map
          (fun t => common.scaling_exponent_from_decimals t.decimals)) with
      | error e => rw [hc] at h; cases h
      | ok exps =>
        rw [hc] at h
        cases h
        simp only [common.PoolInfo.tokens, List.length_map]
        omega
    · rw [common.PoolInfo.from_graph_data, if_neg h1] at h
      cases h
  · obtain ⟨ew, hew⟩ :=
      weighted_from_graph_data_error_of_short pool b hlen
    obtain ⟨es, hes⟩ := stable_from_graph_data_error_of_short pool b hlen
    exact ⟨initial_pools_error_of_mem _ pools b pool hmem ew hew,
      initial_pools_error_of_mem _ pools b pool hmem es hes⟩

/-- C8: a deny-listed pool id never appears in a `fetch` result, whatever
the per-id classification would return for it (even Active): every denied
id is removed from the candidate id set before `pools_by_id` is invoked,
and consequently no pool of the returned `FetchedKoyoPools` carries a
denied id. The registry stack behind `pools_by_id` is abstracted as the
per-id classification `statuses` with the invariant that an Active pool
carries the id it was looked up by. -/
theorem claim_C8_deny_listed_ids_excluded
    (candidate_ids pool_id_deny_list : List H256)
    (statuses : H256 → PoolStatus)
    (hwf : ∀ id p, statuses id = .Active p → p.id = id)
    (d : H256) (hd : d ∈ pool_id_deny_list) :
    d ∉ candidate_ids.filter
      (fun id => ¬ pool_id_deny_list.contains id) ∧
    (∀ wp ∈ (pool_fetching.fetch candidate_ids pool_id_deny_list
      statuses).weighted_pools, wp.common.id ≠ d) ∧
    (∀ sp ∈ (pool_fetching.fetch candidate_ids pool_id_deny_list
      statuses).stable_pools, sp.common.id ≠ d) := by
  have hnotin : d ∉ candidate_ids.filter
      (fun id => ¬ pool_id_deny_list.contains id) := by
    intro hmem
    have h2 := (List.mem_filter.mp hmem).2
    simp at h2
    exact h2 hd
  refine ⟨hnotin, fun wp hwp => ?_, fun sp hsp => ?_⟩
  · obtain ⟨pool, hpool, hwpool⟩ := (mem_fetched_weighted _ _).mp hwp
    obtain ⟨id, hid, hst⟩ := mem_pools_by_id _ _ _ hpool
    have hpid : pool.id = id := hwf id pool hst
    have hidne : id ≠ d := fun h => hnotin (h ▸ hid)
    rcases pool with ⟨pid, kind⟩
    cases kind with
    | Weighted st =>
      simp [pool_fetching.weightedOfPool] at hwpool
      subst hwpool
      have hpid2 : pid = id := hpid
      show pid ≠ d
      rw [hpid2]
      exact hidne
    | Stable st => simp [pool_fetching.weightedOfPool] at hwpool
  · obtain ⟨pool, hpool, hspool⟩ := (mem_fetched_stable _ _).mp hsp
    obtain ⟨id, hid, hst⟩ := mem_pools_by_id _ _ _ hpool
    have hpid : pool.id = id := hwf id pool hst
    have hidne : id ≠ d := fun h => hnotin (h ▸ hid)
    rcases pool with ⟨pid, kind⟩
    cases kind with
    | Weighted st => simp [pool_fetching.stableOfPool] at hspool
    | Stable st =>
      simp [pool_fetching.stableOfPool] at hspool
      subst hspool
      have hpid2 : pid = id := hpid
      show pid ≠ d
      rw [hpid2]
      exact hidne

/-- C8 witness: with candidate ids `[1]` and `[2]`, the id `[2]` denied and
every id classifying as an Active stable pool, the stable pool returned for
id `[1]` does not carry the denied id. -/
theorem claim_C8_deny_listed_ids_excluded_witness :
    (pool_fetching.StablePool.new_unpaused [1]
      ⟨[], ⟨0⟩, ⟨1, 1⟩⟩).common.id ≠ [2] :=
  (claim_C8_deny_listed_ids_excluded [[1], [2]] [[2]]
    (fun id => .Active ⟨id, .Stable ⟨[], ⟨0⟩, ⟨1, 1⟩⟩⟩)
    (fun id p h => by cases h; rfl) [2] (by decide)).2.2
    (pool_fetching.StablePool.new_unpaused [1] ⟨[], ⟨0⟩, ⟨1, 1⟩⟩)
    (by decide)

/-- C10: every pool of a `fetch` result has its pause flag false and its
address equal to (the numeric value of) the first 20 bytes of its pool id;
each entry is assembled by `new_unpaused` from a query-result `Pool`,
which carries only the id and kind-specific state, so the address recorded
in the pool's `PoolInfo` is never consulted. -/
theorem claim_C10_fetched_pools_unpaused_address
    (candidate_ids pool_id_deny_list : List H256)
    (statuses : H256 → PoolStatus) :
    (∀ wp ∈ (pool_fetching.fetch candidate_ids pool_id_deny_list
      statuses).weighted_pools,
      wp.common.paused = false ∧
      wp.common.address =
        pool_fetching.pool_address_from_id wp.common.id) ∧
    (∀ sp ∈ (pool_fetching.fetch candidate_ids pool_id_deny_list
      statuses).stable_pools,
      sp.common.paused = false ∧
      sp.common.address =
        pool_fetching.pool_address_from_id sp.common.id) := by
  refine ⟨fun wp hwp => ?_, fun sp hsp => ?_⟩
  · obtain ⟨pool, hpool, hwpool⟩ := (mem_fetched_weighted _ _).mp hwp
    rcases pool with ⟨pid, kind⟩
    cases kind with
    | Weighted st =>
      simp [pool_fetching.weightedOfPool] at hwpool
      subst hwpool
      exact ⟨rfl, rfl⟩
    | Stable st => simp [pool_fetching.weightedOfPool] at hwpool
  · obtain ⟨pool, hpool, hspool⟩ := (mem_fetched_stable _ _).mp hsp
    rcases pool with ⟨pid, kind⟩
    cases kind with
    | Weighted st => simp [pool_fetching.stableOfPool] at hspool
    | Stable st =>
      simp [pool_fetching.stableOfPool] at hspool
      subst hspool
      exact ⟨rfl, rfl⟩

/-- C10 witness: the weighted pool fetched for id `[1]` is unpaused and
its address is derived from its id. -/
theorem claim_C10_fetched_pools_unpaused_address_witness :
    (pool_fetching.WeightedPool.new_unpaused [1] ⟨[], ⟨2⟩⟩).common.paused =
      false ∧
    (pool_fetching.WeightedPool.new_unpaused [1] ⟨[], ⟨2⟩⟩).common.address =
      pool_fetching.pool_address_from_id
        (pool_fetching.WeightedPool.new_unpaused [1] ⟨[], ⟨2⟩⟩).common.id :=
  (claim_C10_fetched_pools_unpaused_address [[1]] []
    (fun id => .Active ⟨id, .Weighted ⟨[], ⟨2⟩⟩⟩)).1
    (pool_fetching.WeightedPool.new_unpaused [1] ⟨[], ⟨2⟩⟩) (by decide)

/-- C7 witness: a one-token record is rejected by the common conversion and
makes a stable registry seeding containing it fail. -/
theorem claim_C7_at_least_two_tokens_witness :
    common.PoolInfo.from_graph_data ⟨.Weighted, [4], 4, [⟨1, 18, none⟩]⟩ 0 =
      .error "insufficient tokens in pool" ∧
    (∃ e, pool_fetching.initial_pools stable.PoolInfo.from_graph_data
      [⟨.Weighted, [4], 4, [⟨1, 18, none⟩]⟩] 0 = .error e) :=
  ⟨(claim_C7_at_least_two_tokens ⟨.Weighted, [4], 4, [⟨1, 18, none⟩]⟩ 0).1
      (by decide),
    ((claim_C7_at_least_two_tokens ⟨.Weighted, [4], 4, [⟨1, 18, none⟩]⟩
        0).2.2 [⟨.Weighted, [4], 4, [⟨1, 18, none⟩]⟩] (by decide)
      (by decide)).2⟩

/-- C5 counterexample: for a pool whose recorded token list is not in
ascending address order, the weighted `fetch_pool_state` pairs balances
with the wrong weights. The pool records tokens `[2, 1]` with weights
`[5, 7]` (so token `1`, at index 1, has weight `7`); the common state map
iterates in ascending address order, so the zip assigns token `1` the
weight `5`. The common state used is exactly the one
`fetch_common_pool_state` produces for this pool. -/
theorem claim_C5_counterexample :
    common.fetch_common_pool_state ⟨[9], 9, [2, 1], [0, 0], 5⟩
      (.ok (false, 0, 0)) (.ok 3) (.ok ([2, 1], [10, 20], 0)) =
      .ok ⟨false, ⟨3⟩, [(1, ⟨20, 0⟩), (2, ⟨10, 0⟩)]⟩ ∧
    weighted.fetch_pool_state ⟨0⟩ ⟨⟨[9], 9, [2, 1], [0, 0], 5⟩, [⟨5⟩, ⟨7⟩]⟩
      ⟨false, ⟨3⟩, [(1, ⟨20, 0⟩), (2, ⟨10, 0⟩)]⟩ =
      .ok (some ⟨[(1, ⟨⟨20, 0⟩, ⟨5⟩⟩), (2, ⟨⟨10, 0⟩, ⟨7⟩⟩)], ⟨3⟩⟩) ∧
    ¬ weighted.pairsWeightsByIndex
      ⟨⟨[9], 9, [2, 1], [0, 0], 5⟩, [⟨5⟩, ⟨7⟩]⟩
      ⟨false, ⟨3⟩, [(1, ⟨20, 0⟩), (2, ⟨10, 0⟩)]⟩
      ⟨[(1, ⟨⟨20, 0⟩, ⟨5⟩⟩), (2, ⟨⟨10, 0⟩, ⟨7⟩⟩)], ⟨3⟩⟩ := by
  refine ⟨rfl, rfl, fun hP => ?_⟩
  have h1 := hP ⟨1, by decide⟩ (by decide)
  exact absurd h1 (by decide)

/-- C5 (amended): whenever the pool's recorded token list is strictly
ascending — which is what the common state's `BTreeMap` iteration order
assumes, and what the on-chain vault guarantees — the weighted pool state
produced by `fetch_pool_state` pairs every token's common-state balance
with that token's fixed weight at its index of the recorded token list; in
general the zip pairs the i-th smallest token with the i-th weight. -/
theorem claim_C5_weighted_pairing_for_sorted_tokens
    (factory : KoyoV2WeightedPoolFactory) (info : weighted.PoolInfo)
    (cs : common.PoolState) (st : weighted.PoolState)
    (hsort : (cs.tokens.map Prod.fst).Pairwise (· < ·))
    (hkeys : cs.tokens.map Prod.fst = info.common.tokens)
    (hlen : info.weights.length = info.common.tokens.length)
    (hfetch : weighted.fetch_pool_state factory info cs = .ok (some st)) :
    weighted.pairsWeightsByIndex info cs st := by
  have hlen2 : cs.tokens.length = info.common.tokens.length := by
    rw [← hkeys, List.length_map]
  have hle : cs.tokens.length ≤ info.weights.length := by omega
  have hunf : weighted.fetch_pool_state factory info cs =
      .ok (some ⟨btreeOfList ((cs.tokens.zip info.weights).map
        (fun p => (p.1.1, WeightedTokenState.mk p.1.2 p.2))),
        cs.swap_fee⟩) := rfl
  rw [hunf] at hfetch
  have hst : st = ⟨btreeOfList ((cs.tokens.zip info.weights).map
      (fun p => (p.1.1, WeightedTokenState.mk p.1.2 p.2))), cs.swap_fee⟩ :=
    (Option.some.inj (Except.ok.inj hfetch)).symm
  have hzkeys : ((cs.tokens.zip info.weights).map
      (fun p => (p.1.1, WeightedTokenState.mk p.1.2 p.2))).map Prod.fst =
      cs.tokens.map Prod.fst := by
    rw [List.map_map]
    have hcomp : (Prod.fst ∘ fun p : (H160 × TokenState) × Bfp =>
        (p.1.1, WeightedTokenState.mk p.1.2 p.2)) =
        (Prod.fst ∘ (Prod.fst :
          (H160 × TokenState) × Bfp → H160 × TokenState)) := rfl
    rw [hcomp, ← List.map_map, List.map_fst_zip _ _ hle]
  have hnodup : (cs.tokens.map Prod.fst).Nodup :=
    hsort.imp (fun h => ne_of_lt h)
  have hbtree : btreeOfList ((cs.tokens.zip info.weights).map
      (fun p => (p.1.1, WeightedTokenState.mk p.1.2 p.2))) =
      (cs.tokens.zip info.weights).map
        (fun p => (p.1.1, WeightedTokenState.mk p.1.2 p.2)) :=
    btreeOfList_sorted _ (by rw [hzkeys]; exact hsort)
  intro i hw
  have hi1 : (i : Nat) < info.common.tokens.length := i.isLt
  have hi2 : (i : Nat) < cs.tokens.length := by omega
  have hiw : (i : Nat) < info.weights.length := by omega
  have hi3 : (i : Nat) < (List.map Prod.fst cs.tokens).length := by
    rw [List.length_map]
    exact hi2
  have htok : info.common.tokens[(i : Nat)] = (cs.tokens[(i : Nat)]).1 := by
    have h1 : info.common.tokens[(i : Nat)] =
        (List.map Prod.fst cs.tokens)[(i : Nat)] :=
      List.getElem_of_eq hkeys.symm hi1
    rw [List.getElem_map] at h1
    exact h1
  rw [hst]
  show List.lookup (info.common.tokens.get i)
      (btreeOfList ((cs.tokens.zip info.weights).map
        (fun p => (p.1.1, WeightedTokenState.mk p.1.2 p.2)))) = _
  rw [hbtree]
  simp only [List.get_eq_getElem]
  rw [htok]
  rw [lookup_weight_zip cs.tokens info.weights hnodup hle (i : Nat) hi2 hiw]
  rw [lookup_getElem_of_nodup cs.tokens hnodup (i : Nat) hi2]
  simp

/-- C5 witness: for a pool recording the ascending token list `[1, 2]`
with weights `[5, 7]` and the common state produced for it, the state
produced by the weighted `fetch_pool_state` pairs token `1` with weight
`5` and token `2` with weight `7`. -/
theorem claim_C5_weighted_pairing_witness :
    weighted.pairsWeightsByIndex
      ⟨⟨[9], 9, [1, 2], [0, 0], 5⟩, [⟨5⟩, ⟨7⟩]⟩
      ⟨false, ⟨3⟩, [(1, ⟨10, 0⟩), (2, ⟨20, 0⟩)]⟩
      ⟨[(1, ⟨⟨10, 0⟩, ⟨5⟩⟩), (2, ⟨⟨20, 0⟩, ⟨7⟩⟩)], ⟨3⟩⟩ :=
  claim_C5_weighted_pairing_for_sorted_tokens ⟨0⟩
    ⟨⟨[9], 9, [1, 2], [0, 0], 5⟩, [⟨5⟩, ⟨7⟩]⟩
    ⟨false, ⟨3⟩, [(1, ⟨10, 0⟩), (2, ⟨20, 0⟩)]⟩
    ⟨[(1, ⟨⟨10, 0⟩, ⟨5⟩⟩), (2, ⟨⟨20, 0⟩, ⟨7⟩⟩)], ⟨3⟩⟩
    (by decide) (by decide) (by decide) rfl

end KoyoV2
